import Mathlib

/-!
Verification of the gmaps-web-app phone-enrichment pipeline.

Strings from the Go source are modelled as `List Char` (all the characters the
code manipulates are ASCII, so Go's byte strings and rune sequences agree).
Each definition below is a direct translation of the correspondingly named Go
function; doc comments name the source file and the Go construct translated.
-/

/-- Go regexp class `\d` (RE2 default): the ASCII digits `[0-9]`. -/
def isDigitChar (c : Char) : Bool := decide ('0' ≤ c) && decide (c ≤ '9')

/-- Go regexp class `\s` (RE2): `[\t\n\f\r ]`. -/
def isGoSpace (c : Char) : Bool :=
  c = ' ' || c = '\t' || c = '\n' || c = Char.ofNat 12 || c = '\r'

/-- The character class `[\s\-\(\)]` used by `formatPhone` and `isPhoneNumber`
    (both scraper files) to clean a candidate phone string. -/
def isSepChar (c : Char) : Bool := isGoSpace c || c = '-' || c = '(' || c = ')'

/-- `regexp.MustCompile`[\s\-\(\)]`` `.ReplaceAllString(s, "")`: drop every
    separator character (phone_scraper.go lines 180 and 190; part_000 lines 184, 191). -/
def goClean (s : List Char) : List Char := s.filter (fun c => !isSepChar c)

/-- The white-space set of Go's `unicode.IsSpace`, restricted to the code points
    it contains (used by `strings.TrimSpace`). -/
def isUnicodeSpace (c : Char) : Bool :=
  c = ' ' || c = '\t' || c = '\n' || c = Char.ofNat 11 || c = Char.ofNat 12 ||
  c = '\r' || c = Char.ofNat 133 || c = Char.ofNat 160

/-- Go `strings.TrimSpace`. -/
def goTrimSpace (s : List Char) : List Char :=
  ((s.dropWhile isUnicodeSpace).reverse.dropWhile isUnicodeSpace).reverse

/-- Go `strings.HasPrefix pre s` (argument order: prefix first). -/
def goHasPrefix : List Char → List Char → Bool
  | [], _ => true
  | _ :: _, [] => false
  | p :: ps, c :: cs => p == c && goHasPrefix ps cs

/-- `fmt.Sprintf("%s %s %s", cleaned[:3], cleaned[3:6], cleaned[6:])`:
    the 3-3-4 grouped display format produced by `formatPhone`. -/
def group334 (c : List Char) : List Char :=
  c.take 3 ++ ' ' :: ((c.drop 3).take 3 ++ ' ' :: c.drop 6)

/-- `formatPhone` (phone_scraper.go lines 188-206, identical in part_000 lines
    190-205): clean the separators; if the result starts with `+52` strip it and,
    when 10 characters remain, group 3-3-4; a bare 10-character cleaned string
    without a leading `+` is grouped the same way; otherwise the raw input is
    returned unchanged.  The second `if` of the Go code reads the `cleaned`
    variable as reassigned by the `TrimPrefix`, which the `let` chain mirrors. -/
def formatPhone (phone : List Char) : List Char :=
  let cleaned0 := goClean phone
  if goHasPrefix ['+', '5', '2'] cleaned0 then
    let cleaned1 := cleaned0.drop 3
    if cleaned1.length = 10 then group334 cleaned1
    else if cleaned1.length = 10 ∧ goHasPrefix ['+'] cleaned1 = false then group334 cleaned1
    else phone
  else if cleaned0.length = 10 ∧ goHasPrefix ['+'] cleaned0 = false then group334 cleaned0
  else phone

/-- `isPhoneNumber` (phone_scraper.go lines 178-185): after removing
    `[\s\-\(\)]`, the text must match `^\+?\d{10,15}$`.  Because `+` is not a
    digit, the anchored regex holds exactly when the cleaned text, minus an
    optional leading `+`, is 10 to 15 digits. -/
def isPhoneNumber (text : List Char) : Bool :=
  let cleaned := goClean text
  let core := if goHasPrefix ['+'] cleaned then cleaned.drop 1 else cleaned
  decide (10 ≤ core.length) && decide (core.length ≤ 15) && core.all isDigitChar

example : formatPhone ('5' :: '5' :: '1' :: '2' :: '3' :: '4' :: '5' :: '6' :: '7' :: '8' :: []) =
    ('5' :: '5' :: '1' :: ' ' :: '2' :: '3' :: '4' :: ' ' :: '5' :: '6' :: '7' :: '8' :: []) := by
  decide

example : formatPhone ('+' :: '5' :: '2' :: '5' :: '5' :: '1' :: '2' :: '3' :: '4' :: '5' :: '6' :: '7' :: '8' :: []) =
    ('5' :: '5' :: '1' :: ' ' :: '2' :: '3' :: '4' :: ' ' :: '5' :: '6' :: '7' :: '8' :: []) := by
  decide

example : isPhoneNumber ('5' :: '5' :: ' ' :: '1' :: '2' :: '3' :: '4' :: ' ' :: '5' :: '6' :: '7' :: '8' :: []) = true := by
  decide

example : isPhoneNumber ('a' :: 'b' :: 'c' :: '-' :: 'd' :: 'e' :: 'f' :: 'g' :: []) = false := by
  decide

/-!
## Regular-expression matching

Go's `regexp` package implements leftmost-first (Perl style) matching:
`FindString` returns the match starting at the earliest position, and at that
position the match a backtracking search would find first, with `?` greedy.
The three phone patterns use only literals, the classes `\d`, `\s`, `[\s\-]`
and the greedy optional `?`, so a continuation-passing backtracking matcher
reproduces `FindString` exactly.  A matcher returns the consumed prefix and
the remaining suffix.
-/

/-- A matcher consumes a prefix of the input: `some (matched, rest)` on success. -/
def Matcher : Type := List Char → Option (List Char × List Char)

/-- End of pattern: match the empty string. -/
def mEnd : Matcher := fun s => some ([], s)

/-- A single character of class `p`, then continue with `k`. -/
def mClass (p : Char → Bool) (k : Matcher) : Matcher := fun s =>
  match s with
  | [] => none
  | c :: rest =>
    if p c then Option.map (fun pr => (c :: pr.1, pr.2)) (k rest) else none

/-- Greedy optional character of class `p` (regex `X?`): prefer consuming it,
    fall back to the empty alternative if the continuation then fails. -/
def mOpt (p : Char → Bool) (k : Matcher) : Matcher := fun s =>
  match s with
  | [] => k []
  | c :: rest =>
    if p c then
      match k rest with
      | some pr => some (c :: pr.1, pr.2)
      | none => k (c :: rest)
    else k (c :: rest)

/-- `\d{n}`, then continue with `k`. -/
def mDigits : Nat → Matcher → Matcher
  | 0, k => k
  | n + 1, k => mClass isDigitChar (mDigits n k)

/-- The pattern `\+?52\s?\d{3}\s?\d{3}\s?\d{4}` (`mexicanPhoneRegex`,
    phone_scraper.go line 157, part_000 line 168). -/
def mexicanPhonePat : Matcher :=
  mOpt (fun c => c = '+') (mClass (fun c => c = '5') (mClass (fun c => c = '2')
    (mOpt isGoSpace (mDigits 3 (mOpt isGoSpace (mDigits 3
      (mOpt isGoSpace (mDigits 4 mEnd))))))))

/-- The pattern `\d{3}\s?\d{3}\s?\d{4}` (`tenDigitRegex`, phone_scraper.go
    line 163, part_000 line 174). -/
def tenDigitPat : Matcher :=
  mDigits 3 (mOpt isGoSpace (mDigits 3 (mOpt isGoSpace (mDigits 4 mEnd))))

/-- The class `[\s\-]` of `generalPhoneRegex`. -/
def isSpaceOrDash (c : Char) : Bool := isGoSpace c || c = '-'

/-- The pattern `\d{3}[\s\-]?\d{3}[\s\-]?\d{4}` (`generalPhoneRegex`,
    phone_scraper.go line 169; absent from part_000). -/
def generalPhonePat : Matcher :=
  mDigits 3 (mOpt isSpaceOrDash (mDigits 3 (mOpt isSpaceOrDash (mDigits 4 mEnd))))

/-- `FindString`: try the pattern at each position from the left; the three
    phone patterns never match the empty string, so `none` models Go's `""`. -/
def findMatch (m : Matcher) : List Char → Option (List Char)
  | [] => Option.map Prod.fst (m [])
  | c :: rest =>
    match m (c :: rest) with
    | some pr => some pr.1
    | none => findMatch m rest

/-- `extractPhoneFromText` (phone_scraper.go lines 155-175): try the three
    patterns in order; a match of the Mexican pattern goes through
    `formatPhone`, the other matches are returned trimmed. -/
def extractPhoneFromText (text : List Char) : List Char :=
  match findMatch mexicanPhonePat text with
  | some m => formatPhone (goTrimSpace m)
  | none =>
    match findMatch tenDigitPat text with
    | some m => goTrimSpace m
    | none =>
      match findMatch generalPhonePat text with
      | some m => goTrimSpace m
      | none => []

/-- `extractPhoneFromText` of the batch scraper (part_000 lines 166-180): the
    same function without the third, general pattern. -/
def extractPhoneFromTextEnhanced (text : List Char) : List Char :=
  match findMatch mexicanPhonePat text with
  | some m => formatPhone (goTrimSpace m)
  | none =>
    match findMatch tenDigitPat text with
    | some m => goTrimSpace m
    | none => []

example : extractPhoneFromText
    ('T' :: 'e' :: 'l' :: ' ' :: '5' :: '5' :: '5' :: ' ' :: '1' :: '2' :: '3' :: ' ' :: '4' :: '5' :: '6' :: '7' :: []) =
    ('5' :: '5' :: '5' :: ' ' :: '1' :: '2' :: '3' :: ' ' :: '4' :: '5' :: '6' :: '7' :: []) := by
  decide

example : extractPhoneFromText
    ('+' :: '5' :: '2' :: ' ' :: '5' :: '5' :: '1' :: ' ' :: '2' :: '3' :: '4' :: ' ' :: '5' :: '6' :: '7' :: '8' :: []) =
    ('5' :: '5' :: '1' :: ' ' :: '2' :: '3' :: '4' :: ' ' :: '5' :: '6' :: '7' :: '8' :: []) := by
  decide

example : extractPhoneFromText ('h' :: 'o' :: 'l' :: 'a' :: []) = [] := by decide

/-!
## The locator

A rendered page is modelled at the interface boundary of the page-query
capability: what each of the four CSS queries of `findPhoneNumber` returns
(`none` models a query error), and for each element the results of the
`Attribute` and `Text` calls the code makes (`none` models an error or, for
attributes, a nil pointer).
-/

/-- One DOM element handle, reduced to the accessors the locator uses. -/
structure DomElem where
  dataItemId : Option (List Char)
  ariaLabel : Option (List Char)
  text : Option (List Char)
deriving DecidableEq

/-- A page, reduced to the four element queries the locator performs. -/
structure PageModel where
  phoneButtons : Option (List DomElem)
  telLabelButtons : Option (List DomElem)
  displayClassElems : Option (List DomElem)
  allElements : Option (List DomElem)
deriving DecidableEq

/-- The literal `"phone:tel:"`. -/
def phoneTelPat : List Char :=
  'p' :: 'h' :: 'o' :: 'n' :: 'e' :: ':' :: 't' :: 'e' :: 'l' :: ':' :: []

/-- Go `strings.Contains s pat` (argument order: pattern second in Go; here
    the pattern comes first). -/
def containsSub (pat : List Char) : List Char → Bool
  | [] => goHasPrefix pat []
  | c :: rest => goHasPrefix pat (c :: rest) || containsSub pat rest

/-- Go `strings.Replace s old "" 1` for a non-empty `old`: remove the first
    occurrence of `old` from `s`. -/
def replaceFirst (pat : List Char) : List Char → List Char
  | [] => []
  | c :: rest =>
    if goHasPrefix pat (c :: rest) then (c :: rest).drop pat.length
    else c :: replaceFirst pat rest

/-- Strategy 1 loop body (`button[data-item-id*='phone']` elements): an element
    whose `data-item-id` contains `phone:tel:` yields the formatted suffix
    immediately (even if empty); otherwise the element's text goes through the
    text-pattern extractor. -/
def strat1Loop (extractor : List Char → List Char) : List DomElem → Option (List Char)
  | [] => none
  | e :: rest =>
    match e.dataItemId with
    | some d =>
      if containsSub phoneTelPat d then some (formatPhone (replaceFirst phoneTelPat d))
      else
        match e.text with
        | some t =>
          if extractor t = [] then strat1Loop extractor rest else some (extractor t)
        | none => strat1Loop extractor rest
    | none =>
      match e.text with
      | some t =>
        if extractor t = [] then strat1Loop extractor rest else some (extractor t)
      | none => strat1Loop extractor rest

/-- Strategy 2 loop body (`button[aria-label*='Teléfono']` elements): run the
    extractor over each aria-label. -/
def strat2Loop (extractor : List Char → List Char) : List DomElem → Option (List Char)
  | [] => none
  | e :: rest =>
    match e.ariaLabel with
    | some l =>
      if extractor l = [] then strat2Loop extractor rest else some (extractor l)
    | none => strat2Loop extractor rest

/-- Strategy 3 loop body (display-class elements): accept the trimmed element
    text only if `isPhoneNumber` validates it. -/
def strat3Loop : List DomElem → Option (List Char)
  | [] => none
  | e :: rest =>
    match e.text with
    | some t => if isPhoneNumber (goTrimSpace t) then some (goTrimSpace t) else strat3Loop rest
    | none => strat3Loop rest

/-- Strategy 4 loop body (phone_scraper.go only, `Elements("*")`): run the
    extractor over every element's non-empty text. -/
def strat4Loop (extractor : List Char → List Char) : List DomElem → Option (List Char)
  | [] => none
  | e :: rest =>
    match e.text with
    | some t =>
      if t = [] then strat4Loop extractor rest
      else if extractor t = [] then strat4Loop extractor rest else some (extractor t)
    | none => strat4Loop extractor rest

/-- Strategy 1 of the single-URL locator: its element query guarded by
    `err == nil && len(phoneElements) > 0`, then the loop. -/
def strategyPhoneAttr (p : PageModel) : Option (List Char) :=
  match p.phoneButtons with
  | some es => if 0 < es.length then strat1Loop extractPhoneFromText es else none
  | none => none

/-- Strategy 2 of the single-URL locator. -/
def strategyAriaLabel (p : PageModel) : Option (List Char) :=
  match p.telLabelButtons with
  | some es => if 0 < es.length then strat2Loop extractPhoneFromText es else none
  | none => none

/-- Strategy 3 (identical in both locators: it uses no text extractor). -/
def strategyDisplayClass (p : PageModel) : Option (List Char) :=
  match p.displayClassElems with
  | some es => if 0 < es.length then strat3Loop es else none
  | none => none

/-- Strategy 4, the fallback scan (phone_scraper.go lines 140-149; guarded only
    by `err == nil`, with no length check). -/
def strategyFallbackScan (p : PageModel) : Option (List Char) :=
  match p.allElements with
  | some es => strat4Loop extractPhoneFromText es
  | none => none

/-- Strategy 1 of the batch locator (part_000: same block, but its
    `extractPhoneFromText` lacks the general pattern). -/
def strategyPhoneAttrEnh (p : PageModel) : Option (List Char) :=
  match p.phoneButtons with
  | some es => if 0 < es.length then strat1Loop extractPhoneFromTextEnhanced es else none
  | none => none

/-- Strategy 2 of the batch locator. -/
def strategyAriaLabelEnh (p : PageModel) : Option (List Char) :=
  match p.telLabelButtons with
  | some es => if 0 < es.length then strat2Loop extractPhoneFromTextEnhanced es else none
  | none => none

/-- `findPhoneNumber` (phone_scraper.go lines 97-152): the four strategy blocks
    in source order; a block that `return`s ends the function, a block that
    falls through passes control to the next; after strategy 4 the function
    returns `""`. -/
def findPhoneNumber (p : PageModel) : List Char :=
  match strategyPhoneAttr p with
  | some r => r
  | none =>
    match strategyAriaLabel p with
    | some r => r
    | none =>
      match strategyDisplayClass p with
      | some r => r
      | none =>
        match strategyFallbackScan p with
        | some r => r
        | none => []

/-- `findPhoneNumber` of the batch scraper (part_000 lines 119-163): only the
    first three strategy blocks; there is no fallback scan. -/
def findPhoneNumberEnhanced (p : PageModel) : List Char :=
  match strategyPhoneAttrEnh p with
  | some r => r
  | none =>
    match strategyAriaLabelEnh p with
    | some r => r
    | none =>
      match strategyDisplayClass p with
      | some r => r
      | none => []

/-- First strategy outcome in a priority list (the spec's "fixed priority
    order, returning the first result, no backtracking"). -/
def firstSome : List (Option (List Char)) → Option (List Char)
  | [] => none
  | some r :: _ => some r
  | none :: rest => firstSome rest

/-!
## The extraction-job runner

`findPhoneWithTimeout` (phone_scraper.go lines 73-94, part_000 lines 95-116)
spawns the locator in a goroutine which posts a non-empty result on `done` and
an error on `errChan` (both buffered, so the goroutine always runs to
completion and never blocks), and `select`s between the two channels and the
30-second context deadline.  The embedding takes the locator's eventual result
and one oracle bit: whether the deadline fired before the locator's message was
received.
-/

/-- `findPhoneWithTimeout`: outcome of the `select` given the locator's
    eventual result and whether the deadline came first. -/
def findPhoneWithTimeout (locatorResult : List Char) (deadlineFirst : Bool) :
    Except String (List Char) :=
  if deadlineFirst then Except.error "timeout finding phone"
  else if locatorResult = [] then Except.error "no phone found"
  else Except.ok locatorResult

/-- `ExtractPhoneFromGoogleMapsURL` (part_000 lines 69-92): navigation failure
    is an error; otherwise the page is awaited and `findPhoneWithTimeout` runs. -/
def ExtractPhoneFromGoogleMapsURL (navigateOk : Bool) (locatorResult : List Char)
    (deadlineFirst : Bool) : Except String (List Char) :=
  if navigateOk then findPhoneWithTimeout locatorResult deadlineFirst
  else Except.error "failed to navigate to URL"

/-!
## The worker pool

`processPlacesWithPhones` (part_000 lines 296-358) spawns one goroutine per
record.  Each goroutine registers three deferred actions (`wg.Done`, the
progress-bar tick, the semaphore receive — run in reverse order at exit), then
sends on the buffered channel `semaphore` of capacity `maxPhoneWorkers` (the
send blocks while the buffer is full, i.e. while `maxPhoneWorkers` goroutines
hold un-released tokens), does the eligible record's extraction and the
1-second pacing sleep, and finally runs the defers, the first of which receives
from the channel and frees the slot.

The pool is modelled as an interleaving transition system over the per-worker
phases.  A worker holds a slot from the successful send until the deferred
receive, which in the Go code happens after the pacing sleep.
-/

/-- `maxPhoneWorkers` (part_000 line 21). -/
def maxPhoneWorkers : Nat := 3

/-- Phase of one worker goroutine: not yet scheduled, blocked on the semaphore
    send, doing the extraction, in the pacing `time.Sleep`, or exited (defers
    run, slot released). -/
inductive WPhase where
  | idle
  | waiting
  | working
  | pacing
  | done
deriving DecidableEq

/-- A worker holds a semaphore slot while extracting and while pacing: the
    channel receive that frees the slot is deferred and runs only after the
    sleep. -/
def slotHeld : WPhase → Bool
  | .working => true
  | .pacing => true
  | _ => false

/-- Number of slots currently held. -/
def slotCount (s : List WPhase) : Nat := s.countP slotHeld

/-- One interleaving step of the pool with concurrency cap `k`.  `acquire` is
    the buffered-channel send: it is enabled only while fewer than `k` tokens
    are outstanding.  `skipRelease` is the exit path of an ineligible record
    (no extraction, no pacing sleep, straight to the defers). -/
inductive PoolStep (k : Nat) : List WPhase → List WPhase → Prop
  | start (s : List WPhase) (i : Nat) (h : s.get? i = some .idle) :
      PoolStep k s (s.set i .waiting)
  | acquire (s : List WPhase) (i : Nat) (h : s.get? i = some .waiting)
      (hcap : slotCount s < k) : PoolStep k s (s.set i .working)
  | finishWork (s : List WPhase) (i : Nat) (h : s.get? i = some .working) :
      PoolStep k s (s.set i .pacing)
  | skipRelease (s : List WPhase) (i : Nat) (h : s.get? i = some .working) :
      PoolStep k s (s.set i .done)
  | finishPace (s : List WPhase) (i : Nat) (h : s.get? i = some .pacing) :
      PoolStep k s (s.set i .done)

/-- Reachability in the pool system. -/
def PoolReach (k : Nat) : List WPhase → List WPhase → Prop :=
  Relation.ReflTransGen (PoolStep k)

/-- The abstract actions of one worker goroutine body, for an eligible record
    whose extraction succeeds (part_000 lines 324-350). -/
inductive WorkerAction where
  | acquireSlot
  | runExtraction
  | writeScrapedPhone
  | pacingSleep
  | releaseSlot
  | progressTick
  | waitGroupDone
deriving DecidableEq

/-- Execution order of the goroutine body: the statements in source order,
    then the three deferred calls in reverse registration order (`wg.Done` was
    registered first, the progress tick second, the semaphore receive third, so
    the receive runs first at exit).  The pacing `time.Sleep` is a plain
    statement of the body and therefore precedes every deferred action. -/
def workerBodyActions : List WorkerAction :=
  WorkerAction.acquireSlot :: WorkerAction.runExtraction ::
    WorkerAction.writeScrapedPhone :: WorkerAction.pacingSleep ::
    WorkerAction.releaseSlot :: WorkerAction.progressTick ::
    WorkerAction.waitGroupDone :: []

/-!
## The pipeline orchestrator

Records and the batch entry point `ProcessCSV` (part_000 lines 207-252).  The
per-record extraction call (browser, locator, timeout) is abstracted as an
oracle from the record index to the `(phone, err)` pair it produces; a
goroutine writes `ScrapedPhone` exactly when `err == nil && phone != ""`.
Since each index is written by its goroutine alone, the final array is the
per-index map of that update.
-/

/-- `PlaceWithPhone` (part_000 lines 31-41). -/
structure PlaceWithPhone where
  Name : String
  Address : String
  Stars : String
  Reviews : String
  Phone : String
  Hours : String
  Website : String
  GoogleURL : String
  ScrapedPhone : String
deriving DecidableEq

/-- The body of one worker (part_000 lines 336-349): only a record with no
    original phone and a non-empty source URL is processed; a successful
    non-empty extraction is written to `ScrapedPhone`. -/
def processPlace (result : Except Unit String) (p : PlaceWithPhone) : PlaceWithPhone :=
  if p.Phone = "" ∧ p.GoogleURL ≠ "" then
    match result with
    | Except.ok ph => if ph ≠ "" then { p with ScrapedPhone := ph } else p
    | Except.error _ => p
  else p

/-- Per-index processing of the tail of the record list starting at index `i`. -/
def processPlacesFrom (oracle : Nat → Except Unit String) :
    Nat → List PlaceWithPhone → List PlaceWithPhone
  | _, [] => []
  | i, p :: rest => processPlace (oracle i) p :: processPlacesFrom oracle (i + 1) rest

/-- `processPlacesWithPhones` (part_000 lines 296-358): final contents of
    `updatedPlaces` after `wg.Wait()`. -/
def processPlacesWithPhones (oracle : Nat → Except Unit String)
    (places : List PlaceWithPhone) : List PlaceWithPhone :=
  processPlacesFrom oracle 0 places

/-- `ProcessCSV` (part_000 lines 208-252), after the records are loaded: an
    empty record list is rejected with an explicit error; otherwise the pool
    runs and the statistics loop counts the records whose `ScrapedPhone` is
    non-empty.  The result models `(updatedPlaces, total, phonesFound)`. -/
def ProcessCSV (oracle : Nat → Except Unit String) (places : List PlaceWithPhone) :
    Except String (List PlaceWithPhone × Nat × Nat) :=
  if places.length = 0 then Except.error "no places found in CSV"
  else
    let updatedPlaces := processPlacesWithPhones oracle places
    let phonesFound := updatedPlaces.countP (fun p => p.ScrapedPhone != "")
    Except.ok (updatedPlaces, updatedPlaces.length, phonesFound)

/-- A record is eligible for extraction (no original phone, has a source URL)
    — the condition of part_000 line 339. -/
def eligiblePlace (p : PlaceWithPhone) : Bool :=
  p.Phone == "" && p.GoogleURL != ""

/-- The claim's counting rule: a record counts as "with phone" when its
    original or its extracted phone is non-empty. -/
def recordHasPhone (p : PlaceWithPhone) : Bool :=
  p.Phone != "" || p.ScrapedPhone != ""

/-!
## The progress broadcaster

`handleMessages` (web_server.go lines 57-68) iterates the `clients` set for
each broadcast message and deletes a client whose `WriteJSON` failed;
`handleWebSocket` (lines 521-542) registers a client and deletes it when its
read loop gets an error.  The observer set is modelled as a list of connection
identifiers and the three mutations as labelled transitions; a broadcast
carries the per-client write-failure oracle.
-/

/-- The label of a broadcaster transition. -/
inductive BLabel where
  | register (c : Nat)
  | broadcastMsg (fail : Nat → Bool)
  | readFail (c : Nat)

/-- Transitions of the observer set: registration on WebSocket upgrade, one
    `handleMessages` iteration (failing writes deregister), and the read-loop
    error path of `handleWebSocket`. -/
inductive BStep : BLabel → List Nat → List Nat → Prop
  | register (c : Nat) (s : List Nat) : BStep (.register c) s (s.insert c)
  | broadcastMsg (fail : Nat → Bool) (s : List Nat) :
      BStep (.broadcastMsg fail) s (s.filter (fun c => !fail c))
  | readFail (c : Nat) (s : List Nat) : BStep (.readFail c) s (s.erase c)

/-!
## Character-class and cleaning lemmas
-/

lemma sep_of_digit (c : Char) (h : isDigitChar c = true) : isSepChar c = false := by
  by_contra hne
  have hs : isSepChar c = true := by
    cases hx : isSepChar c
    · exact absurd hx hne
    · rfl
  simp only [isSepChar, isGoSpace, Bool.or_eq_true, decide_eq_true_eq] at hs
  rcases hs with ((((((h1 | h1) | h1) | h1) | h1) | h1) | h1) | h1 <;>
    · subst h1
      exact absurd h (by decide)

lemma unispace_of_digit (c : Char) (h : isDigitChar c = true) : isUnicodeSpace c = false := by
  by_contra hne
  have hs : isUnicodeSpace c = true := by
    cases hx : isUnicodeSpace c
    · exact absurd hx hne
    · rfl
  simp only [isUnicodeSpace, Bool.or_eq_true, decide_eq_true_eq] at hs
  rcases hs with ((((((h1 | h1) | h1) | h1) | h1) | h1) | h1) | h1 <;>
    · subst h1
      exact absurd h (by decide)

lemma plus_beq_of_digit (c : Char) (h : isDigitChar c = true) : ('+' == c) = false := by
  cases hx : ('+' == c)
  · rfl
  · have : '+' = c := by simpa using hx
    subst this
    exact absurd h (by decide)

lemma goClean_append (a b : List Char) : goClean (a ++ b) = goClean a ++ goClean b := by
  simp [goClean]

lemma goClean_fix_of_all (s : List Char) (h : ∀ c ∈ s, isSepChar c = false) :
    goClean s = s := by
  apply List.filter_eq_self.mpr
  intro c hc
  simp [h c hc]

lemma all_of_goClean_fix (s : List Char) (h : goClean s = s) :
    ∀ c ∈ s, isSepChar c = false := by
  intro c hc
  have := List.filter_eq_self.mp h c hc
  simpa using this

lemma goClean_idem (s : List Char) : goClean (goClean s) = goClean s := by
  apply goClean_fix_of_all
  intro c hc
  have := List.of_mem_filter hc
  simpa using this

lemma goClean_fix_drop (s : List Char) (n : Nat) (h : goClean s = s) :
    goClean (s.drop n) = s.drop n :=
  goClean_fix_of_all _ (fun c hc => all_of_goClean_fix s h c (List.mem_of_mem_drop hc))

lemma goClean_fix_take (s : List Char) (n : Nat) (h : goClean s = s) :
    goClean (s.take n) = s.take n :=
  goClean_fix_of_all _ (fun c hc => all_of_goClean_fix s h c (List.mem_of_mem_take hc))

lemma all_digits_clean (ds : List Char) (h : ds.all isDigitChar = true) :
    goClean ds = ds :=
  goClean_fix_of_all _ (fun c hc => sep_of_digit c (List.all_eq_true.mp h c hc))

lemma clean_of_seps (sp : List Char) (h : ∀ c ∈ sp, isSepChar c = true) :
    goClean sp = [] := by
  apply List.filter_eq_nil_iff.mpr
  intro c hc
  simp [h c hc]

lemma goClean_group334 (c : List Char) (hfix : goClean c = c) :
    goClean (group334 c) = c := by
  have ht3 := goClean_fix_take c 3 hfix
  have hd3 := goClean_fix_drop c 3 hfix
  have ht33 := goClean_fix_take (c.drop 3) 3 hd3
  have hd6 := goClean_fix_drop c 6 hfix
  have hsp : goClean [' '] = [] := by decide
  calc goClean (group334 c)
      = goClean (c.take 3) ++ goClean ([' '] ++ ((c.drop 3).take 3 ++ ([' '] ++ c.drop 6))) := by
        simp only [group334, goClean_append, List.cons_append, List.nil_append,
          List.append_assoc]
    _ = c.take 3 ++ ((c.drop 3).take 3 ++ c.drop 6) := by
        rw [goClean_append, goClean_append, goClean_append, hsp, ht3, ht33, hd6]
        simp
    _ = c := by
        have h6 : c.drop 6 = (c.drop 3).drop 3 := by
          rw [List.drop_drop]
        rw [h6, List.take_append_drop, List.take_append_drop]

/-!
## Trim lemmas
-/

lemma head?_append_left {α : Type} (l t : List α) (h : l ≠ []) :
    (l ++ t).head? = l.head? := by
  cases l with
  | nil => exact absurd rfl h
  | cons a l' => rfl

lemma head_of_all {α : Type} (p : α → Bool) (l : List α) (h : l.all p = true)
    (c : α) (hc : l.head? = some c) : p c = true := by
  cases l with
  | nil => simp at hc
  | cons a l' =>
    have : a = c := by simpa using hc
    subst this
    exact List.all_eq_true.mp h a (by simp)

lemma goTrimSpace_eq_self (m : List Char)
    (h1 : ∀ c, m.head? = some c → isUnicodeSpace c = false)
    (h2 : ∀ c, m.reverse.head? = some c → isUnicodeSpace c = false) :
    goTrimSpace m = m := by
  unfold goTrimSpace
  have e1 : m.dropWhile isUnicodeSpace = m := by
    cases m with
    | nil => rfl
    | cons c t =>
      have hc := h1 c rfl
      simp [List.dropWhile_cons, hc]
  rw [e1]
  have e2 : m.reverse.dropWhile isUnicodeSpace = m.reverse := by
    cases hm : m.reverse with
    | nil => rfl
    | cons c t =>
      have hc := h2 c (by rw [hm]; rfl)
      rw [hm] at *
      simp [List.dropWhile_cons, hc]
  rw [e2, List.reverse_reverse]

/-!
## Matcher inversion lemmas
-/

lemma mEnd_eq (s m r : List Char) (h : mEnd s = some (m, r)) : m = [] ∧ r = s := by
  simp only [mEnd, Option.some.injEq, Prod.mk.injEq] at h
  exact ⟨h.1.symm, h.2.symm⟩

lemma mClass_eq (p : Char → Bool) (k : Matcher) (s m r : List Char)
    (h : mClass p k s = some (m, r)) :
    ∃ c s' m', s = c :: s' ∧ p c = true ∧ k s' = some (m', r) ∧ m = c :: m' := by
  cases s with
  | nil => simp [mClass] at h
  | cons c rest =>
    simp only [mClass] at h
    by_cases hc : p c
    · rw [if_pos hc] at h
      cases hk : k rest with
      | none => rw [hk] at h; simp at h
      | some pr =>
        rw [hk] at h
        simp only [Option.map_some', Option.some.injEq, Prod.mk.injEq] at h
        refine ⟨c, rest, pr.1, rfl, hc, ?_, h.1.symm⟩
        rw [hk, ← h.2]
    · rw [if_neg hc] at h
      simp at h

lemma mOpt_eq (p : Char → Bool) (k : Matcher) (s m r : List Char)
    (h : mOpt p k s = some (m, r)) :
    (∃ c s' m', s = c :: s' ∧ p c = true ∧ k s' = some (m', r) ∧ m = c :: m') ∨
      k s = some (m, r) := by
  cases s with
  | nil => exact Or.inr h
  | cons c rest =>
    simp only [mOpt] at h
    by_cases hc : p c
    · rw [if_pos hc] at h
      cases hk : k rest with
      | none => rw [hk] at h; exact Or.inr h
      | some pr =>
        rw [hk] at h
        simp only [Option.some.injEq, Prod.mk.injEq] at h
        refine Or.inl ⟨c, rest, pr.1, rfl, hc, ?_, h.1.symm⟩
        rw [hk, ← h.2]
    · rw [if_neg hc] at h
      exact Or.inr h

lemma mDigits_eq (n : Nat) (k : Matcher) :
    ∀ s m r : List Char, mDigits n k s = some (m, r) →
      ∃ ds m' s', m = ds ++ m' ∧ ds.length = n ∧ ds.all isDigitChar = true ∧
        k s' = some (m', r) := by
  induction n with
  | zero => intro s m r h; exact ⟨[], m, s, rfl, rfl, rfl, h⟩
  | succ n ih =>
    intro s m r h
    obtain ⟨c, s', m', hs, hc, hk, hm⟩ := mClass_eq _ _ _ _ _ h
    obtain ⟨ds, m'', s'', hm', hlen, hall, hk'⟩ := ih s' m' r hk
    refine ⟨c :: ds, m'', s'', ?_, by simp [hlen], ?_, hk'⟩
    · simp [hm, hm']
    · simp [List.all_cons, hc, hall]

/-- The shared suffix `\d{3}X?\d{3}X?\d{4}` of the three phone patterns, with
    separator class `X`. -/
def tailPat (p : Char → Bool) : Matcher :=
  mDigits 3 (mOpt p (mDigits 3 (mOpt p (mDigits 4 mEnd))))

/-- A separator group produced by an `X?`: empty or a single class character. -/
def optSep (p : Char → Bool) (sp : List Char) : Prop :=
  sp = [] ∨ ∃ c, sp = [c] ∧ p c = true

lemma tailPat_eq_tenDigit : tenDigitPat = tailPat isGoSpace := rfl

lemma tailPat_eq_general : generalPhonePat = tailPat isSpaceOrDash := rfl

lemma tailPat_spec (p : Char → Bool) (s m r : List Char)
    (h : tailPat p s = some (m, r)) :
    ∃ d1 sp1 d2 sp2 d3,
      m = d1 ++ (sp1 ++ (d2 ++ (sp2 ++ d3))) ∧
      d1.length = 3 ∧ d2.length = 3 ∧ d3.length = 4 ∧
      d1.all isDigitChar = true ∧ d2.all isDigitChar = true ∧
      d3.all isDigitChar = true ∧ optSep p sp1 ∧ optSep p sp2 := by
  obtain ⟨d1, m1, s1, hm, h1len, h1all, h1⟩ := mDigits_eq 3 _ s m r h
  have hopt1 := mOpt_eq p _ s1 m1 r h1
  rcases hopt1 with ⟨c1, s1', m2, hs1, hc1, h2, hm1⟩ | h2
  ·
    obtain ⟨d2, m3, s2, hm2, h2len, h2all, h3⟩ := mDigits_eq 3 _ s1' m2 r h2
    have hopt2 := mOpt_eq p _ s2 m3 r h3
    rcases hopt2 with ⟨c2, s2', m4, hs2, hc2, h4, hm3⟩ | h4
    ·
      obtain ⟨d3, m5, s3, hm4, h3len, h3all, h5⟩ := mDigits_eq 4 _ s2' m4 r h4
      obtain ⟨hm5, _⟩ := mEnd_eq _ _ _ h5
      refine ⟨d1, [c1], d2, [c2], d3, ?_, h1len, h2len, h3len, h1all, h2all, h3all,
        Or.inr ⟨c1, rfl, hc1⟩, Or.inr ⟨c2, rfl, hc2⟩⟩
      rw [hm, hm1, hm2, hm3, hm4, hm5]
      simp
    ·
      obtain ⟨d3, m5, s3, hm4, h3len, h3all, h5⟩ := mDigits_eq 4 _ s2 m3 r h4
      obtain ⟨hm5, _⟩ := mEnd_eq _ _ _ h5
      refine ⟨d1, [c1], d2, [], d3, ?_, h1len, h2len, h3len, h1all, h2all, h3all,
        Or.inr ⟨c1, rfl, hc1⟩, Or.inl rfl⟩
      rw [hm, hm1, hm2, hm4, hm5]
      simp
  ·
    obtain ⟨d2, m3, s2, hm2, h2len, h2all, h3⟩ := mDigits_eq 3 _ s1 m1 r h2
    have hopt2 := mOpt_eq p _ s2 m3 r h3
    rcases hopt2 with ⟨c2, s2', m4, hs2, hc2, h4, hm3⟩ | h4
    ·
      obtain ⟨d3, m5, s3, hm4, h3len, h3all, h5⟩ := mDigits_eq 4 _ s2' m4 r h4
      obtain ⟨hm5, _⟩ := mEnd_eq _ _ _ h5
      refine ⟨d1, [], d2, [c2], d3, ?_, h1len, h2len, h3len, h1all, h2all, h3all,
        Or.inl rfl, Or.inr ⟨c2, rfl, hc2⟩⟩
      rw [hm, hm2, hm3, hm4, hm5]
      simp
    ·
      obtain ⟨d3, m5, s3, hm4, h3len, h3all, h5⟩ := mDigits_eq 4 _ s2 m3 r h4
      obtain ⟨hm5, _⟩ := mEnd_eq _ _ _ h5
      refine ⟨d1, [], d2, [], d3, ?_, h1len, h2len, h3len, h1all, h2all, h3all,
        Or.inl rfl, Or.inl rfl⟩
      rw [hm, hm2, hm4, hm5]
      simp

lemma rev_head_right {α : Type} (a b : List α) (hb : b ≠ []) :
    (a ++ b).reverse.head? = b.reverse.head? := by
  rw [List.reverse_append]
  apply head?_append_left
  intro hr
  exact hb (by simpa using congrArg List.reverse hr)

lemma exists_head_digit (d : List Char) (hne : d ≠ []) (ha : d.all isDigitChar = true) :
    ∃ c, d.head? = some c ∧ isDigitChar c = true := by
  cases d with
  | nil => exact absurd rfl hne
  | cons a t => exact ⟨a, rfl, List.all_eq_true.mp ha a (by simp)⟩

lemma exists_rev_head_digit (d : List Char) (hne : d ≠ []) (ha : d.all isDigitChar = true) :
    ∃ c, d.reverse.head? = some c ∧ isDigitChar c = true := by
  cases hrev : d.reverse with
  | nil => exact absurd (by simpa using congrArg List.reverse hrev) hne
  | cons a t =>
    refine ⟨a, ?_, ?_⟩
    · rfl
    have : a ∈ d := by
      rw [← List.mem_reverse, hrev]
      simp
    exact List.all_eq_true.mp ha a this

lemma optSep_clean (p : Char → Bool) (hp : ∀ c, p c = true → isSepChar c = true)
    (sp : List Char) (hsp : optSep p sp) : goClean sp = [] := by
  rcases hsp with rfl | ⟨c, rfl, hc⟩
  · rfl
  · apply clean_of_seps
    intro x hx
    rw [List.mem_singleton] at hx
    subst hx
    exact hp _ hc

lemma spaced_match_facts (p : Char → Bool) (hp : ∀ c, p c = true → isSepChar c = true)
    (d1 sp1 d2 sp2 d3 : List Char)
    (h1 : d1.length = 3) (h2 : d2.length = 3) (h3 : d3.length = 4)
    (a1 : d1.all isDigitChar = true) (a2 : d2.all isDigitChar = true)
    (a3 : d3.all isDigitChar = true)
    (o1 : optSep p sp1) (o2 : optSep p sp2) :
    goClean (d1 ++ (sp1 ++ (d2 ++ (sp2 ++ d3)))) = d1 ++ (d2 ++ d3) ∧
    (d1 ++ (d2 ++ d3)).length = 10 ∧
    (d1 ++ (d2 ++ d3)).all isDigitChar = true ∧
    (∃ c, (d1 ++ (sp1 ++ (d2 ++ (sp2 ++ d3)))).head? = some c ∧ isDigitChar c = true) ∧
    (∃ c, (d1 ++ (sp1 ++ (d2 ++ (sp2 ++ d3)))).reverse.head? = some c ∧
      isDigitChar c = true) := by
  have hd1 : d1 ≠ [] := by intro hh; rw [hh] at h1; simp at h1
  have hd2 : d2 ≠ [] := by intro hh; rw [hh] at h2; simp at h2
  have hd3 : d3 ≠ [] := by intro hh; rw [hh] at h3; simp at h3
  refine ⟨?_, ?_, ?_, ?_, ?_⟩
  · rw [goClean_append, goClean_append, goClean_append, goClean_append,
      all_digits_clean d1 a1, all_digits_clean d2 a2, all_digits_clean d3 a3,
      optSep_clean p hp sp1 o1, optSep_clean p hp sp2 o2]
    simp
  · simp [h1, h2, h3]
  · simp [List.all_append, a1, a2, a3]
  · obtain ⟨c, hc, hdc⟩ := exists_head_digit d1 hd1 a1
    exact ⟨c, by rw [head?_append_left _ _ hd1]; exact hc, hdc⟩
  · obtain ⟨c, hc, hdc⟩ := exists_rev_head_digit d3 hd3 a3
    refine ⟨c, ?_, hdc⟩
    have hne1 : sp1 ++ (d2 ++ (sp2 ++ d3)) ≠ [] := by
      intro hh
      obtain ⟨_, hh2⟩ := List.append_eq_nil.mp hh
      obtain ⟨hh3, _⟩ := List.append_eq_nil.mp hh2
      exact hd2 hh3
    have hne2 : d2 ++ (sp2 ++ d3) ≠ [] := by
      intro hh
      obtain ⟨hh1, _⟩ := List.append_eq_nil.mp hh
      exact hd2 hh1
    have hne3 : sp2 ++ d3 ≠ [] := by
      intro hh
      obtain ⟨_, hh2⟩ := List.append_eq_nil.mp hh
      exact hd3 hh2
    rw [rev_head_right _ _ hne1, rev_head_right _ _ hne2, rev_head_right _ _ hne3,
      rev_head_right _ _ hd3]
    exact hc

lemma findMatch_eq (m : Matcher) :
    ∀ t mm : List Char, findMatch m t = some mm → ∃ s r, m s = some (mm, r) := by
  intro t
  induction t with
  | nil =>
    intro mm h
    simp only [findMatch] at h
    cases hm : m [] with
    | none => rw [hm] at h; simp at h
    | some pr =>
      rw [hm] at h
      simp only [Option.map_some', Option.some.injEq] at h
      exact ⟨[], pr.2, by rw [hm, ← h]⟩
  | cons c rest ih =>
    intro mm h
    simp only [findMatch] at h
    cases hm : m (c :: rest) with
    | none => rw [hm] at h; exact ih mm h
    | some pr =>
      rw [hm] at h
      simp only [Option.some.injEq] at h
      exact ⟨c :: rest, pr.2, by rw [hm, ← h]⟩

lemma goSpace_sep (c : Char) (h : isGoSpace c = true) : isSepChar c = true := by
  simp [isSepChar, h]

lemma spaceOrDash_sep (c : Char) (h : isSpaceOrDash c = true) : isSepChar c = true := by
  simp only [isSpaceOrDash, Bool.or_eq_true] at h
  rcases h with h | h
  · simp [isSepChar, h]
  · simp [isSepChar, isGoSpace, h]

lemma tenDigitPat_found (t mm : List Char) (h : findMatch tenDigitPat t = some mm) :
    goTrimSpace mm = mm ∧ ∃ ds, goClean mm = ds ∧ ds.length = 10 ∧
      ds.all isDigitChar = true := by
  obtain ⟨s, r, hs⟩ := findMatch_eq _ _ _ h
  rw [tailPat_eq_tenDigit] at hs
  obtain ⟨d1, sp1, d2, sp2, d3, hm, h1, h2, h3, a1, a2, a3, o1, o2⟩ :=
    tailPat_spec _ _ _ _ hs
  obtain ⟨hc, hlen, hall, hhd, hrv⟩ :=
    spaced_match_facts isGoSpace goSpace_sep d1 sp1 d2 sp2 d3 h1 h2 h3 a1 a2 a3 o1 o2
  subst hm
  obtain ⟨c0, hc0, hd0⟩ := hhd
  obtain ⟨c1, hc1, hd1⟩ := hrv
  refine ⟨?_, d1 ++ (d2 ++ d3), hc, hlen, hall⟩
  apply goTrimSpace_eq_self
  · intro c hcc
    rw [hc0] at hcc
    cases hcc
    exact unispace_of_digit _ hd0
  · intro c hcc
    rw [hc1] at hcc
    cases hcc
    exact unispace_of_digit _ hd1

lemma generalPhonePat_found (t mm : List Char)
    (h : findMatch generalPhonePat t = some mm) :
    goTrimSpace mm = mm ∧ ∃ ds, goClean mm = ds ∧ ds.length = 10 ∧
      ds.all isDigitChar = true := by
  obtain ⟨s, r, hs⟩ := findMatch_eq _ _ _ h
  rw [tailPat_eq_general] at hs
  obtain ⟨d1, sp1, d2, sp2, d3, hm, h1, h2, h3, a1, a2, a3, o1, o2⟩ :=
    tailPat_spec _ _ _ _ hs
  obtain ⟨hc, hlen, hall, hhd, hrv⟩ :=
    spaced_match_facts isSpaceOrDash spaceOrDash_sep d1 sp1 d2 sp2 d3 h1 h2 h3 a1 a2 a3 o1 o2
  subst hm
  obtain ⟨c0, hc0, hd0⟩ := hhd
  obtain ⟨c1, hc1, hd1⟩ := hrv
  refine ⟨?_, d1 ++ (d2 ++ d3), hc, hlen, hall⟩
  apply goTrimSpace_eq_self
  · intro c hcc
    rw [hc0] at hcc
    cases hcc
    exact unispace_of_digit _ hd0
  · intro c hcc
    rw [hc1] at hcc
    cases hcc
    exact unispace_of_digit _ hd1

lemma goClean_cons_keep (c : Char) (l : List Char) (h : isSepChar c = false) :
    goClean (c :: l) = c :: goClean l := by
  simp [goClean, List.filter_cons, h]

lemma goClean_cons_drop (c : Char) (l : List Char) (h : isSepChar c = true) :
    goClean (c :: l) = goClean l := by
  simp [goClean, List.filter_cons, h]

lemma mexTail_facts (s3 m3 r : List Char)
    (h : mOpt isGoSpace (tailPat isGoSpace) s3 = some (m3, r)) :
    ∃ ds, ds.length = 10 ∧ ds.all isDigitChar = true ∧ goClean m3 = ds ∧
      (∃ c, m3.reverse.head? = some c ∧ isUnicodeSpace c = false) ∧ m3 ≠ [] := by
  rcases mOpt_eq _ _ _ _ _ h with ⟨csp, s4, m4, hseq, hcsp, hk, hmeq⟩ | hk
  · obtain ⟨d1, sp1, d2, sp2, d3, hm, h1, h2, h3, a1, a2, a3, o1, o2⟩ :=
      tailPat_spec _ _ _ _ hk
    obtain ⟨hc, hlen, hall, hhd, hrv⟩ :=
      spaced_match_facts isGoSpace goSpace_sep d1 sp1 d2 sp2 d3 h1 h2 h3 a1 a2 a3 o1 o2
    obtain ⟨c1, hc1, hd1⟩ := hrv
    obtain ⟨c0, hc0, _⟩ := hhd
    have hm4ne : m4 ≠ [] := by
      intro hh
      rw [← hm, hh] at hc0
      simp at hc0
    refine ⟨d1 ++ (d2 ++ d3), hlen, hall, ?_, ?_, by rw [hmeq]; simp⟩
    · rw [hmeq, goClean_cons_drop _ _ (goSpace_sep _ hcsp), hm]
      exact hc
    · refine ⟨c1, ?_, unispace_of_digit _ hd1⟩
      have : m3 = [csp] ++ m4 := by rw [hmeq]; rfl
      rw [this, rev_head_right _ _ hm4ne, hm]
      exact hc1
  · obtain ⟨d1, sp1, d2, sp2, d3, hm, h1, h2, h3, a1, a2, a3, o1, o2⟩ :=
      tailPat_spec _ _ _ _ hk
    obtain ⟨hc, hlen, hall, hhd, hrv⟩ :=
      spaced_match_facts isGoSpace goSpace_sep d1 sp1 d2 sp2 d3 h1 h2 h3 a1 a2 a3 o1 o2
    obtain ⟨c1, hc1, hd1⟩ := hrv
    obtain ⟨c0, hc0, _⟩ := hhd
    have hm3ne : m3 ≠ [] := by
      intro hh
      rw [← hm, hh] at hc0
      simp at hc0
    refine ⟨d1 ++ (d2 ++ d3), hlen, hall, by rw [hm]; exact hc, ?_, hm3ne⟩
    refine ⟨c1, ?_, unispace_of_digit _ hd1⟩
    rw [hm]
    exact hc1

lemma mexicanPat_found (t mm : List Char) (h : findMatch mexicanPhonePat t = some mm) :
    goTrimSpace mm = mm ∧ ∃ ds, ds.length = 10 ∧ ds.all isDigitChar = true ∧
      (goClean mm = '5' :: '2' :: ds ∨ goClean mm = '+' :: '5' :: '2' :: ds) := by
  obtain ⟨s, r, hs⟩ := findMatch_eq _ _ _ h
  have hs' : mOpt (fun c => decide (c = '+')) (mClass (fun c => decide (c = '5'))
      (mClass (fun c => decide (c = '2')) (mOpt isGoSpace (tailPat isGoSpace)))) s
      = some (mm, r) := hs
  rcases mOpt_eq _ _ _ _ _ hs' with ⟨cp, s1, m1, hseq, hcp, hk1, hmeq⟩ | hk1
  · have hcp' : cp = '+' := of_decide_eq_true hcp
    subst hcp'
    obtain ⟨c5, s2, m2, hs1eq, hc5, hk2, hm1eq⟩ := mClass_eq _ _ _ _ _ hk1
    have hc5' : c5 = '5' := of_decide_eq_true hc5
    subst hc5'
    obtain ⟨c2, s3, m3, hs2eq, hc2, hk3, hm2eq⟩ := mClass_eq _ _ _ _ _ hk2
    have hc2' : c2 = '2' := of_decide_eq_true hc2
    subst hc2'
    obtain ⟨ds, hlen, hall, hcl, ⟨c1, hc1, hu1⟩, hne⟩ := mexTail_facts _ _ _ hk3
    have hmm : mm = '+' :: '5' :: '2' :: m3 := by rw [hmeq, hm1eq, hm2eq]
    constructor
    · apply goTrimSpace_eq_self
      · intro c hcc
        rw [hmm] at hcc
        cases hcc
        decide
      · intro c hcc
        have : mm = ('+' :: '5' :: '2' :: []) ++ m3 := by rw [hmm]; rfl
        rw [this, rev_head_right _ _ hne, hc1] at hcc
        cases hcc
        exact hu1
    · refine ⟨ds, hlen, hall, Or.inr ?_⟩
      rw [hmm, goClean_cons_keep _ _ (by decide), goClean_cons_keep _ _ (by decide),
        goClean_cons_keep _ _ (by decide), hcl]
  · obtain ⟨c5, s2, m2, hs1eq, hc5, hk2, hm1eq⟩ := mClass_eq _ _ _ _ _ hk1
    have hc5' : c5 = '5' := of_decide_eq_true hc5
    subst hc5'
    obtain ⟨c2, s3, m3, hs2eq, hc2, hk3, hm2eq⟩ := mClass_eq _ _ _ _ _ hk2
    have hc2' : c2 = '2' := of_decide_eq_true hc2
    subst hc2'
    obtain ⟨ds, hlen, hall, hcl, ⟨c1, hc1, hu1⟩, hne⟩ := mexTail_facts _ _ _ hk3
    have hmm : mm = '5' :: '2' :: m3 := by rw [hm1eq, hm2eq]
    constructor
    · apply goTrimSpace_eq_self
      · intro c hcc
        rw [hmm] at hcc
        cases hcc
        decide
      · intro c hcc
        have : mm = ('5' :: '2' :: []) ++ m3 := by rw [hmm]; rfl
        rw [this, rev_head_right _ _ hne, hc1] at hcc
        cases hcc
        exact hu1
    · refine ⟨ds, hlen, hall, Or.inl ?_⟩
      rw [hmm, goClean_cons_keep _ _ (by decide), goClean_cons_keep _ _ (by decide), hcl]

lemma isPhoneNumber_digits (t ds : List Char) (h : goClean t = ds)
    (h10 : 10 ≤ ds.length) (h15 : ds.length ≤ 15) (hall : ds.all isDigitChar = true) :
    isPhoneNumber t = true := by
  cases ds with
  | nil => simp at h10
  | cons c rest =>
    have hc : isDigitChar c = true := List.all_eq_true.mp hall c (by simp)
    have hpre : goHasPrefix ['+'] (c :: rest) = false := by
      simp [goHasPrefix, plus_beq_of_digit c hc]
    unfold isPhoneNumber
    rw [h]
    simp [hpre, hall]
    constructor
    · simpa using h10
    · simpa using h15

lemma isPhoneNumber_plus_digits (t ds : List Char) (h : goClean t = '+' :: ds)
    (h10 : 10 ≤ ds.length) (h15 : ds.length ≤ 15) (hall : ds.all isDigitChar = true) :
    isPhoneNumber t = true := by
  have hpre : goHasPrefix ['+'] ('+' :: ds) = true := by simp [goHasPrefix]
  unfold isPhoneNumber
  rw [h]
  simp [hpre, hall, h10, h15]

lemma formatPhone_plus52 (t ds : List Char) (hc : goClean t = '+' :: '5' :: '2' :: ds)
    (h10 : ds.length = 10) : formatPhone t = group334 ds := by
  have hpre : goHasPrefix ['+', '5', '2'] ('+' :: '5' :: '2' :: ds) = true := by
    simp [goHasPrefix]
  unfold formatPhone
  rw [hc]
  simp [hpre, h10]

lemma formatPhone_52_12 (t ds : List Char) (hc : goClean t = '5' :: '2' :: ds)
    (h10 : ds.length = 10) : formatPhone t = t := by
  have hb : ('+' == '5') = false := by decide
  have hpre : goHasPrefix ['+', '5', '2'] ('5' :: '2' :: ds) = false := by
    simp [goHasPrefix, hb]
  unfold formatPhone
  rw [hc]
  simp [hpre, h10]

lemma group334_digits_valid (ds : List Char) (h10 : ds.length = 10)
    (hall : ds.all isDigitChar = true) : isPhoneNumber (group334 ds) = true := by
  apply isPhoneNumber_digits _ ds
  · exact goClean_group334 ds (all_digits_clean ds hall)
  · omega
  · omega
  · exact hall

/-- An `extractPhoneFromText` result that went through a pattern is validated. -/
lemma extract_valid_of_mexican (t mm : List Char)
    (h : findMatch mexicanPhonePat t = some mm) :
    isPhoneNumber (formatPhone (goTrimSpace mm)) = true := by
  obtain ⟨htrim, ds, hlen, hall, hcase⟩ := mexicanPat_found t mm h
  rw [htrim]
  rcases hcase with hcl | hcl
  · rw [formatPhone_52_12 mm ds hcl hlen]
    apply isPhoneNumber_digits mm ('5' :: '2' :: ds) hcl
    · simp [hlen]
    · simp [hlen]
    · simp [hall]
      constructor <;> decide
  · rw [formatPhone_plus52 mm ds hcl hlen]
    exact group334_digits_valid ds hlen hall

lemma formatPhone_cases (phone : List Char) :
    formatPhone phone = phone ∨
      ∃ c, goClean c = c ∧ c.length = 10 ∧ formatPhone phone = group334 c := by
  simp only [formatPhone]
  split_ifs with h1 h2 h3 h4
  · exact Or.inr ⟨(goClean phone).drop 3, goClean_fix_drop _ 3 (goClean_idem phone), h2, rfl⟩
  · exact absurd h3.1 h2
  · exact Or.inl rfl
  · exact Or.inr ⟨goClean phone, goClean_idem phone, h4.1, rfl⟩
  · exact Or.inl rfl

lemma goHasPrefix_cons_inv (p : Char) (ps s : List Char)
    (h : goHasPrefix (p :: ps) s = true) :
    ∃ s', s = p :: s' ∧ goHasPrefix ps s' = true := by
  cases s with
  | nil => simp [goHasPrefix] at h
  | cons c cs =>
    simp only [goHasPrefix, Bool.and_eq_true, beq_iff_eq] at h
    exact ⟨cs, by rw [h.1], h.2⟩

lemma formatPhone_group334 (c : List Char) (hfix : goClean c = c) (h10 : c.length = 10) :
    formatPhone (group334 c) = group334 c := by
  have hg : goClean (group334 c) = c := goClean_group334 c hfix
  by_cases hp : goHasPrefix ['+', '5', '2'] c = true
  · obtain ⟨t1, he1, hp1⟩ := goHasPrefix_cons_inv _ _ _ hp
    obtain ⟨t2, he2, hp2⟩ := goHasPrefix_cons_inv _ _ _ hp1
    obtain ⟨t3, he3, hp3⟩ := goHasPrefix_cons_inv _ _ _ hp2
    subst he2
    subst he3
    have h7 : t3.length = 7 := by
      rw [he1] at h10
      simpa using h10
    have hpre : goHasPrefix ['+', '5', '2'] ('+' :: '5' :: '2' :: t3) = true := by
      simp [goHasPrefix]
    simp only [formatPhone]
    rw [hg, he1]
    simp [hpre, h7]
  · have hp' : goHasPrefix ['+', '5', '2'] c = false := by
      cases hx : goHasPrefix ['+', '5', '2'] c
      · rfl
      · exact absurd hx hp
    simp only [formatPhone]
    rw [hg, hp']
    simp only [Bool.false_eq_true, if_false]
    split_ifs <;> rfl

/-- C3: the normalizer `formatPhone` is idempotent: applying it to its own
    output returns that output unchanged, for every input string. -/
theorem formatPhone_idempotent (phone : List Char) :
    formatPhone (formatPhone phone) = formatPhone phone := by
  rcases formatPhone_cases phone with h | ⟨c, hfix, h10, heq⟩
  · rw [h]
    exact h
  · rw [heq]
    exact formatPhone_group334 c hfix h10

/-- C4: a 10-digit string is normalized by `formatPhone` into the three
    space-separated groups 3-3-4 (`group334`), and prefixing it with `+52`
    strips the prefix and yields the same grouped result. -/
theorem formatPhone_tenDigit_grouping (ds : List Char) (h10 : ds.length = 10)
    (hall : ds.all isDigitChar = true) :
    formatPhone ds = group334 ds ∧
    formatPhone ('+' :: '5' :: '2' :: ds) = group334 ds := by
  have hfix : goClean ds = ds := all_digits_clean ds hall
  constructor
  · cases ds with
    | nil => simp at h10
    | cons c rest =>
      have hc := List.all_eq_true.mp hall c (by simp)
      have hb := plus_beq_of_digit c hc
      have hpre2 : goHasPrefix ['+', '5', '2'] (c :: rest) = false := by
        simp [goHasPrefix, hb]
      have hpre1 : goHasPrefix ['+'] (c :: rest) = false := by
        simp [goHasPrefix, hb]
      simp only [formatPhone]
      rw [hfix, hpre2]
      simp [hpre1, h10]
  · have hclean : goClean ('+' :: '5' :: '2' :: ds) = '+' :: '5' :: '2' :: ds := by
      rw [goClean_cons_keep _ _ (by decide), goClean_cons_keep _ _ (by decide),
        goClean_cons_keep _ _ (by decide), hfix]
    exact formatPhone_plus52 _ ds hclean h10

theorem formatPhone_tenDigit_grouping_witness :
    formatPhone ('5' :: '5' :: '1' :: '2' :: '3' :: '4' :: '5' :: '6' :: '7' :: '8' :: []) =
      group334 ('5' :: '5' :: '1' :: '2' :: '3' :: '4' :: '5' :: '6' :: '7' :: '8' :: []) ∧
    formatPhone ('+' :: '5' :: '2' :: '5' :: '5' :: '1' :: '2' :: '3' :: '4' :: '5' :: '6' :: '7' :: '8' :: []) =
      group334 ('5' :: '5' :: '1' :: '2' :: '3' :: '4' :: '5' :: '6' :: '7' :: '8' :: []) :=
  formatPhone_tenDigit_grouping _ (by decide) (by decide)

/-- C10: whenever the text-pattern matcher returns a non-empty string, that
    string passes the validator `isPhoneNumber`; this holds for the three-pattern
    matcher of phone_scraper.go and the two-pattern matcher of the batch
    scraper. -/
theorem extractPhone_validates (t : List Char) :
    (extractPhoneFromText t ≠ [] → isPhoneNumber (extractPhoneFromText t) = true) ∧
    (extractPhoneFromTextEnhanced t ≠ [] →
      isPhoneNumber (extractPhoneFromTextEnhanced t) = true) := by
  constructor
  · intro hne
    unfold extractPhoneFromText at hne ⊢
    cases h1 : findMatch mexicanPhonePat t with
    | some mm =>
      simp only [h1]
      exact extract_valid_of_mexican t mm h1
    | none =>
      simp only [h1] at hne ⊢
      cases h2 : findMatch tenDigitPat t with
      | some mm =>
        simp only [h2]
        obtain ⟨htrim, ds, hcl, hlen, hall⟩ := tenDigitPat_found t mm h2
        rw [htrim]
        exact isPhoneNumber_digits mm ds hcl (by omega) (by omega) hall
      | none =>
        simp only [h2] at hne ⊢
        cases h3 : findMatch generalPhonePat t with
        | some mm =>
          simp only [h3]
          obtain ⟨htrim, ds, hcl, hlen, hall⟩ := generalPhonePat_found t mm h3
          rw [htrim]
          exact isPhoneNumber_digits mm ds hcl (by omega) (by omega) hall
        | none =>
          simp only [h3] at hne
          exact absurd rfl hne
  · intro hne
    unfold extractPhoneFromTextEnhanced at hne ⊢
    cases h1 : findMatch mexicanPhonePat t with
    | some mm =>
      simp only [h1]
      exact extract_valid_of_mexican t mm h1
    | none =>
      simp only [h1] at hne ⊢
      cases h2 : findMatch tenDigitPat t with
      | some mm =>
        simp only [h2]
        obtain ⟨htrim, ds, hcl, hlen, hall⟩ := tenDigitPat_found t mm h2
        rw [htrim]
        exact isPhoneNumber_digits mm ds hcl (by omega) (by omega) hall
      | none =>
        simp only [h2] at hne
        exact absurd rfl hne

theorem extractPhone_validates_witness :
    isPhoneNumber (extractPhoneFromText
      ('5' :: '5' :: '5' :: ' ' :: '1' :: '2' :: '3' :: ' ' :: '4' :: '5' :: '6' :: '7' :: [])) = true ∧
    isPhoneNumber (extractPhoneFromTextEnhanced
      ('5' :: '5' :: '5' :: ' ' :: '1' :: '2' :: '3' :: ' ' :: '4' :: '5' :: '6' :: '7' :: [])) = true :=
  ⟨(extractPhone_validates _).1 (by decide), (extractPhone_validates _).2 (by decide)⟩

/-- C6: if the deadline fires before the locator's message is received the job
    reports the timeout failure and never a phone; the timeout outcome is
    independent of the locator's eventual result (the spawned lookup still runs
    to completion in the model — its result is evaluated — and is merely
    discarded); before the deadline, a non-empty locator result is reported as
    that phone and an empty one as not-found. -/
theorem findPhoneWithTimeout_spec (r r' : List Char) (b : Bool) :
    (b = true → findPhoneWithTimeout r b = Except.error "timeout finding phone" ∧
      ∀ p, findPhoneWithTimeout r b ≠ Except.ok p) ∧
    (findPhoneWithTimeout r true = findPhoneWithTimeout r' true) ∧
    (b = false → r ≠ [] → findPhoneWithTimeout r b = Except.ok r) ∧
    (b = false → r = [] → findPhoneWithTimeout r b = Except.error "no phone found") := by
  refine ⟨?_, rfl, ?_, ?_⟩
  · intro hb
    subst hb
    refine ⟨rfl, ?_⟩
    intro p h
    simp [findPhoneWithTimeout] at h
  · intro hb hr
    subst hb
    simp [findPhoneWithTimeout, hr]
  · intro hb hr
    subst hb
    simp [findPhoneWithTimeout, hr]

theorem findPhoneWithTimeout_spec_witness :
    findPhoneWithTimeout ('5' :: []) true = Except.error "timeout finding phone" ∧
    findPhoneWithTimeout ('5' :: []) false = Except.ok ('5' :: []) ∧
    findPhoneWithTimeout [] false = Except.error "no phone found" :=
  ⟨((findPhoneWithTimeout_spec ('5' :: []) [] true).1 rfl).1,
   (findPhoneWithTimeout_spec ('5' :: []) [] false).2.2.1 rfl (by decide),
   (findPhoneWithTimeout_spec [] [] false).2.2.2 rfl rfl⟩

/-- A page with no phone-specific affordances whose only element text contains
    a ten-digit phone: found by the fallback scan alone. -/
def pageNoAffordances : PageModel :=
  { phoneButtons := none,
    telLabelButtons := none,
    displayClassElems := none,
    allElements := some [⟨none, none,
      some ('I' :: 'n' :: 'f' :: 'o' :: ' ' :: '5' :: '5' :: '5' :: ' ' ::
        '1' :: '2' :: '3' :: ' ' :: '4' :: '5' :: '6' :: '7' :: [])⟩] }

/-- A page whose strategy-1 button carries the bare attribute `phone:tel:`
    (empty suffix) while strategy 2 could still find a phone. -/
def pageEmptyAttr : PageModel :=
  { phoneButtons := some [⟨some phoneTelPat, none, none⟩],
    telLabelButtons := some [⟨none,
      some ('T' :: 'e' :: 'l' :: ' ' :: '5' :: '5' :: '5' :: ' ' ::
        '1' :: '2' :: '3' :: ' ' :: '4' :: '5' :: '6' :: '7' :: []), none⟩],
    displayClassElems := none,
    allElements := none }

/-- C5 counterexample: on `pageNoAffordances` the batch locator's strategies
    1-3 all produce nothing and, contrary to the claim, no fallback scan is
    applied: it reports absent although the fallback strategy (present only in
    phone_scraper.go) would find the phone.  On `pageEmptyAttr`,
    phone_scraper.go's locator returns the *empty* strategy-1 result at once
    instead of the first non-empty result. -/
theorem findPhoneNumber_priority_counterexample :
    strategyPhoneAttrEnh pageNoAffordances = none ∧
    strategyAriaLabelEnh pageNoAffordances = none ∧
    strategyDisplayClass pageNoAffordances = none ∧
    findPhoneNumberEnhanced pageNoAffordances = [] ∧
    strategyFallbackScan pageNoAffordances =
      some ('5' :: '5' :: '5' :: ' ' :: '1' :: '2' :: '3' :: ' ' :: '4' :: '5' :: '6' :: '7' :: []) ∧
    findPhoneNumber pageNoAffordances =
      ('5' :: '5' :: '5' :: ' ' :: '1' :: '2' :: '3' :: ' ' :: '4' :: '5' :: '6' :: '7' :: []) ∧
    findPhoneNumber pageEmptyAttr = [] ∧
    strategyAriaLabel pageEmptyAttr ≠ none := by
  refine ⟨rfl, rfl, rfl, rfl, by decide, by decide, by decide, by decide⟩

/-- C5 amended: each locator tries its strategy blocks in the fixed source
    order 1, 2, 3 (and, for phone_scraper.go only, 4), returning the result of
    the first block that produces one — possibly the empty string from the
    strategy-1 phone-scheme attribute path — without backtracking; when its
    blocks all produce nothing, the single-URL locator applies the fallback
    scan before reporting absent, while the batch locator reports absent
    directly, having no fallback. -/
theorem findPhoneNumber_priority_amended (p : PageModel) :
    (∀ r, strategyPhoneAttr p = some r → findPhoneNumber p = r) ∧
    (strategyPhoneAttr p = none → ∀ r, strategyAriaLabel p = some r →
      findPhoneNumber p = r) ∧
    (strategyPhoneAttr p = none → strategyAriaLabel p = none →
      ∀ r, strategyDisplayClass p = some r → findPhoneNumber p = r) ∧
    (strategyPhoneAttr p = none → strategyAriaLabel p = none →
      strategyDisplayClass p = none →
      findPhoneNumber p = (strategyFallbackScan p).getD []) ∧
    (∀ r, strategyPhoneAttrEnh p = some r → findPhoneNumberEnhanced p = r) ∧
    (strategyPhoneAttrEnh p = none → ∀ r, strategyAriaLabelEnh p = some r →
      findPhoneNumberEnhanced p = r) ∧
    (strategyPhoneAttrEnh p = none → strategyAriaLabelEnh p = none →
      ∀ r, strategyDisplayClass p = some r → findPhoneNumberEnhanced p = r) ∧
    (strategyPhoneAttrEnh p = none → strategyAriaLabelEnh p = none →
      strategyDisplayClass p = none → findPhoneNumberEnhanced p = []) := by
  refine ⟨?_, ?_, ?_, ?_, ?_, ?_, ?_, ?_⟩
  · intro r h
    simp [findPhoneNumber, h]
  · intro h1 r h
    simp [findPhoneNumber, h1, h]
  · intro h1 h2 r h
    simp [findPhoneNumber, h1, h2, h]
  · intro h1 h2 h3
    cases h4 : strategyFallbackScan p with
    | some r => simp [findPhoneNumber, h1, h2, h3, h4]
    | none => simp [findPhoneNumber, h1, h2, h3, h4]
  · intro r h
    simp [findPhoneNumberEnhanced, h]
  · intro h1 r h
    simp [findPhoneNumberEnhanced, h1, h]
  · intro h1 h2 r h
    simp [findPhoneNumberEnhanced, h1, h2, h]
  · intro h1 h2 h3
    simp [findPhoneNumberEnhanced, h1, h2, h3]

theorem findPhoneNumber_priority_amended_witness :
    findPhoneNumber pageNoAffordances = (strategyFallbackScan pageNoAffordances).getD [] ∧
    findPhoneNumberEnhanced pageNoAffordances = [] :=
  ⟨(findPhoneNumber_priority_amended pageNoAffordances).2.2.2.1 rfl rfl rfl,
   (findPhoneNumber_priority_amended pageNoAffordances).2.2.2.2.2.2.2 rfl rfl rfl⟩

/-!
## Worker-pool lemmas
-/

lemma countP_set_get {α : Type} (p : α → Bool) :
    ∀ (s : List α) (i : Nat) (a b : α), s.get? i = some a →
      (s.set i b).countP p + (if p a then 1 else 0) =
        s.countP p + (if p b then 1 else 0) := by
  intro s
  induction s with
  | nil => intro i a b h; simp at h
  | cons c t ih =>
    intro i a b h
    cases i with
    | zero =>
      have hc : c = a := by simpa using h
      subst hc
      by_cases h1 : p c <;> by_cases h2 : p b <;>
        simp [List.countP_cons, h1, h2]
    | succ i =>
      have h' : t.get? i = some a := by simpa using h
      have hr := ih i a b h'
      by_cases h1 : p c <;> by_cases h2 : p a <;> by_cases h3 : p b <;>
        simp [List.countP_cons, h1, h2, h3] at hr ⊢ <;> omega

lemma slotCount_le_of_step (k : Nat) (s s' : List WPhase) (h : PoolStep k s s')
    (hs : slotCount s ≤ k) : slotCount s' ≤ k := by
  unfold slotCount at *
  cases h with
  | start i hi =>
    have hc := countP_set_get slotHeld s i .idle .waiting hi
    simp [slotHeld] at hc
    omega
  | acquire i hi hcap =>
    have hc := countP_set_get slotHeld s i .waiting .working hi
    simp [slotHeld] at hc
    unfold slotCount at hcap
    omega
  | finishWork i hi =>
    have hc := countP_set_get slotHeld s i .working .pacing hi
    simp [slotHeld] at hc
    omega
  | skipRelease i hi =>
    have hc := countP_set_get slotHeld s i .working .done hi
    simp [slotHeld] at hc
    omega
  | finishPace i hi =>
    have hc := countP_set_get slotHeld s i .pacing .done hi
    simp [slotHeld] at hc
    omega

/-- C1: with concurrency cap `k` (the code's `maxPhoneWorkers = 3`), from an
    all-idle start no reachable state of the worker pool has more than `k`
    workers holding a semaphore slot; a worker does its extraction only in the
    slot-holding phases, entered by the guarded `acquire` and left by the
    deferred release. -/
theorem processPlacesWithPhones_cap (k : Nat) (s0 s : List WPhase)
    (hinit : ∀ w ∈ s0, w = WPhase.idle) (hreach : PoolReach k s0 s) :
    slotCount s ≤ k := by
  have h0 : slotCount s0 = 0 := by
    unfold slotCount
    apply List.countP_eq_zero.mpr
    intro w hw
    rw [hinit w hw]
    simp [slotHeld]
  induction hreach with
  | refl => omega
  | tail hsteps hstep ih => exact slotCount_le_of_step k _ _ hstep ih

theorem processPlacesWithPhones_cap_witness :
    slotCount (WPhase.working :: WPhase.idle :: []) ≤ maxPhoneWorkers := by
  apply processPlacesWithPhones_cap maxPhoneWorkers
    (WPhase.idle :: WPhase.idle :: [])
  · intro w hw
    simp at hw
    exact hw
  · have t1 : PoolStep maxPhoneWorkers (WPhase.idle :: WPhase.idle :: [])
        (WPhase.waiting :: WPhase.idle :: []) := by
      have h := PoolStep.start (k := maxPhoneWorkers)
        (WPhase.idle :: WPhase.idle :: []) 0 rfl
      simpa using h
    have t2 : PoolStep maxPhoneWorkers (WPhase.waiting :: WPhase.idle :: [])
        (WPhase.working :: WPhase.idle :: []) := by
      have h := PoolStep.acquire (k := maxPhoneWorkers)
        (WPhase.waiting :: WPhase.idle :: []) 0 rfl (by decide)
      simpa using h
    exact Relation.ReflTransGen.head t1
      (Relation.ReflTransGen.head t2 Relation.ReflTransGen.refl)

/-- C7 counterexample: in the goroutine body the deferred slot release runs
    *after* the pacing sleep, not before it, and the pool can reach a state
    (cap 1) where one worker is pacing and a waiting worker cannot acquire —
    the pacing delay does keep the slot occupied. -/
theorem pacing_after_release_counterexample :
    ¬ (List.indexOf WorkerAction.releaseSlot workerBodyActions <
        List.indexOf WorkerAction.pacingSleep workerBodyActions) ∧
    PoolReach 1 (WPhase.idle :: WPhase.idle :: [])
      (WPhase.pacing :: WPhase.waiting :: []) ∧
    ¬ PoolStep 1 (WPhase.pacing :: WPhase.waiting :: [])
      (WPhase.pacing :: WPhase.working :: []) := by
  refine ⟨by decide, ?_, ?_⟩
  · have t1 : PoolStep 1 (WPhase.idle :: WPhase.idle :: [])
        (WPhase.waiting :: WPhase.idle :: []) := by
      have h := PoolStep.start (k := 1) (WPhase.idle :: WPhase.idle :: []) 0 rfl
      simpa using h
    have t2 : PoolStep 1 (WPhase.waiting :: WPhase.idle :: [])
        (WPhase.working :: WPhase.idle :: []) := by
      have h := PoolStep.acquire (k := 1) (WPhase.waiting :: WPhase.idle :: []) 0
        rfl (by decide)
      simpa using h
    have t3 : PoolStep 1 (WPhase.working :: WPhase.idle :: [])
        (WPhase.pacing :: WPhase.idle :: []) := by
      have h := PoolStep.finishWork (k := 1) (WPhase.working :: WPhase.idle :: []) 0 rfl
      simpa using h
    have t4 : PoolStep 1 (WPhase.pacing :: WPhase.idle :: [])
        (WPhase.pacing :: WPhase.waiting :: []) := by
      have h := PoolStep.start (k := 1) (WPhase.pacing :: WPhase.idle :: []) 1 rfl
      simpa using h
    exact Relation.ReflTransGen.head t1 (Relation.ReflTransGen.head t2
      (Relation.ReflTransGen.head t3 (Relation.ReflTransGen.head t4
        Relation.ReflTransGen.refl)))
  · intro h
    have hc := slotCount_le_of_step 1 _ _ h (by decide)
    revert hc
    decide

/-- C7 amended: the fixed 1-second pacing delay runs *before* the deferred
    slot release in the worker body, so the slot stays occupied during the
    delay; consequently any dispatch (a worker moving from waiting to working)
    requires the count of held slots — pacing workers included — to be below
    the cap. -/
theorem pacing_slot_amended :
    (List.indexOf WorkerAction.pacingSleep workerBodyActions <
      List.indexOf WorkerAction.releaseSlot workerBodyActions) ∧
    ∀ (k : Nat) (s s' : List WPhase) (i : Nat), PoolStep k s s' →
      s.get? i = some WPhase.waiting → s'.get? i = some WPhase.working →
      slotCount s < k := by
  constructor
  · decide
  · intro k s s' i hstep hw hw'
    cases hstep with
    | start j hj =>
      by_cases hji : j = i
      · subst hji
        rw [List.get?_set_eq] at hw'
        rw [hj] at hw'
        simp at hw'
      · rw [List.get?_set_ne _ _ hji] at hw'
        rw [hw] at hw'
        simp at hw'
    | acquire j hj hcap =>
      by_cases hji : j = i
      · exact hcap
      · rw [List.get?_set_ne _ _ hji] at hw'
        rw [hw] at hw'
        simp at hw'
    | finishWork j hj =>
      by_cases hji : j = i
      · subst hji
        rw [List.get?_set_eq] at hw'
        rw [hj] at hw'
        simp at hw'
      · rw [List.get?_set_ne _ _ hji] at hw'
        rw [hw] at hw'
        simp at hw'
    | skipRelease j hj =>
      by_cases hji : j = i
      · subst hji
        rw [List.get?_set_eq] at hw'
        rw [hj] at hw'
        simp at hw'
      · rw [List.get?_set_ne _ _ hji] at hw'
        rw [hw] at hw'
        simp at hw'
    | finishPace j hj =>
      by_cases hji : j = i
      · subst hji
        rw [List.get?_set_eq] at hw'
        rw [hj] at hw'
        simp at hw'
      · rw [List.get?_set_ne _ _ hji] at hw'
        rw [hw] at hw'
        simp at hw'

theorem pacing_slot_amended_witness :
    slotCount (WPhase.waiting :: []) < 1 :=
  pacing_slot_amended.2 1 (WPhase.waiting :: []) (WPhase.working :: []) 0
    (PoolStep.acquire _ 0 rfl (by decide)) rfl rfl

/-!
## Pipeline lemmas
-/

lemma processPlacesFrom_get? (oracle : Nat → Except Unit String) :
    ∀ (places : List PlaceWithPhone) (j i : Nat),
      (processPlacesFrom oracle j places).get? i =
        (places.get? i).map (fun p => processPlace (oracle (j + i)) p) := by
  intro places
  induction places with
  | nil => intro j i; simp [processPlacesFrom]
  | cons p rest ih =>
    intro j i
    cases i with
    | zero => simp [processPlacesFrom]
    | succ i =>
      simp only [processPlacesFrom, List.get?_cons_succ]
      rw [ih (j + 1) i]
      have he : j + 1 + i = j + (i + 1) := by omega
      rw [he]

lemma processPlace_skip (r : Except Unit String) (p : PlaceWithPhone)
    (h : eligiblePlace p = false) : processPlace r p = p := by
  unfold processPlace
  rw [if_neg]
  intro hh
  have : eligiblePlace p = true := by
    simp [eligiblePlace, hh.1, hh.2]
  rw [h] at this
  simp at this

/-- A record that is not eligible: it already has an original phone and has no
    source-page URL. -/
def placeIneligible : PlaceWithPhone :=
  ⟨"Cafe", "Av 1", "4.5", "10", "555 111 2222", "9-5", "w", "", ""⟩

/-- An extraction oracle under which every lookup fails. -/
def oracleNone : Nat → Except Unit String := fun _ => Except.error ()

/-- C8 counterexample: a batch with one record and *zero eligible* records is
    not rejected — `ProcessCSV` only rejects when the record list itself is
    empty, so it returns a successful result here. -/
theorem ProcessCSV_reject_counterexample :
    (placeIneligible :: []).countP eligiblePlace = 0 ∧
    ProcessCSV oracleNone (placeIneligible :: []) =
      Except.ok ((placeIneligible :: []), 1, 0) := by
  refine ⟨by decide, rfl⟩

/-- C8 amended: `ProcessCSV` rejects with an explicit error exactly when the
    loaded record list is empty (eligibility plays no part in the check);
    otherwise it processes the full list, and a record that is not eligible
    (original phone present, or no source URL) passes through unchanged. -/
theorem ProcessCSV_reject_amended (oracle : Nat → Except Unit String)
    (places : List PlaceWithPhone) :
    (places = [] ↔ ∃ e, ProcessCSV oracle places = Except.error e) ∧
    (∀ i p, places.get? i = some p → eligiblePlace p = false →
      (processPlacesWithPhones oracle places).get? i = some p) := by
  constructor
  · constructor
    · intro h
      subst h
      exact ⟨"no places found in CSV", rfl⟩
    · rintro ⟨e, he⟩
      cases hp : places with
      | nil => rfl
      | cons a l =>
        rw [hp] at he
        simp [ProcessCSV] at he
  · intro i p hp hel
    unfold processPlacesWithPhones
    rw [processPlacesFrom_get? oracle places 0 i, hp]
    simp [processPlace_skip _ _ hel]

theorem ProcessCSV_reject_amended_witness :
    (processPlacesWithPhones oracleNone (placeIneligible :: [])).get? 0 =
      some placeIneligible ∧
    ∃ e, ProcessCSV oracleNone ([] : List PlaceWithPhone) = Except.error e :=
  ⟨(ProcessCSV_reject_amended oracleNone (placeIneligible :: [])).2 0 placeIneligible
      rfl (by decide),
   (ProcessCSV_reject_amended oracleNone []).1.mp rfl⟩

/-- The end-to-end scenario of the spec: five records, the first two with an
    original phone, the last three eligible. -/
def scenarioPlaces : List PlaceWithPhone :=
  ⟨"A", "a1", "5", "1", "555 111 2222", "h", "w", "u1", ""⟩ ::
  ⟨"B", "a2", "4", "2", "555 333 4444", "h", "w", "u2", ""⟩ ::
  ⟨"C", "a3", "3", "3", "", "h", "w", "u3", ""⟩ ::
  ⟨"D", "a4", "2", "4", "", "h", "w", "u4", ""⟩ ::
  ⟨"E", "a5", "1", "5", "", "h", "w", "u5", ""⟩ :: []

/-- Scenario oracle: the dispatched records at indices 2 and 3 succeed, the
    one at index 4 times out (an error). -/
def scenarioOracle : Nat → Except Unit String := fun i =>
  if i = 2 then Except.ok "111 222 3333"
  else if i = 3 then Except.ok "444 555 6666"
  else Except.error ()

/-- The final record set of the scenario. -/
def scenarioUpdated : List PlaceWithPhone :=
  ⟨"A", "a1", "5", "1", "555 111 2222", "h", "w", "u1", ""⟩ ::
  ⟨"B", "a2", "4", "2", "555 333 4444", "h", "w", "u2", ""⟩ ::
  ⟨"C", "a3", "3", "3", "", "h", "w", "u3", "111 222 3333"⟩ ::
  ⟨"D", "a4", "2", "4", "", "h", "w", "u4", "444 555 6666"⟩ ::
  ⟨"E", "a5", "1", "5", "", "h", "w", "u5", ""⟩ :: []

/-- C2 counterexample: in the 5-record scenario the code's summary reports
    `phonesFound = 2` (40%), counting only non-empty `ScrapedPhone`, while the
    number of records with an original *or* extracted phone is 4 — the claimed
    `withPhone = 4`, `rate = 80%` is not what `ProcessCSV` reports. -/
theorem ProcessCSV_withPhone_counterexample :
    ProcessCSV scenarioOracle scenarioPlaces = Except.ok (scenarioUpdated, 5, 2) ∧
    scenarioUpdated.countP recordHasPhone = 4 ∧
    (2 : Nat) * 100 / 5 = 40 ∧ (40 : Nat) ≠ 80 := by
  refine ⟨rfl, by decide, rfl, by decide⟩

/-- C2 amended: the batch summary counts exactly the records whose *extracted*
    phone is non-empty — original phones are not counted — and in the spec's
    5-record scenario it therefore reports `phonesFound = 2`, i.e. 40%. -/
theorem ProcessCSV_withPhone_amended (oracle : Nat → Except Unit String)
    (places : List PlaceWithPhone) (h : places ≠ []) :
    (∃ u, ProcessCSV oracle places = Except.ok (u, u.length,
        (u.filter (fun p => p.ScrapedPhone != "")).length) ∧
      u = processPlacesWithPhones oracle places) ∧
    ProcessCSV scenarioOracle scenarioPlaces = Except.ok (scenarioUpdated, 5, 2) ∧
    (2 : Nat) * 100 / 5 = 40 := by
  refine ⟨⟨processPlacesWithPhones oracle places, ?_, rfl⟩, rfl, rfl⟩
  unfold ProcessCSV
  rw [if_neg (fun hh => h (List.length_eq_zero.mp hh))]
  simp [List.countP_eq_length_filter]

theorem ProcessCSV_withPhone_amended_witness :
    ∃ u, ProcessCSV scenarioOracle scenarioPlaces = Except.ok (u, u.length,
        (u.filter (fun p => p.ScrapedPhone != "")).length) ∧
      u = processPlacesWithPhones scenarioOracle scenarioPlaces :=
  (ProcessCSV_withPhone_amended scenarioOracle scenarioPlaces (by decide)).1

/-!
## Broadcaster claims
-/

/-- C9 counterexample: the claim "every transition that removes an observer is
    one in which a write to it returned an error" is false: the read-loop
    error path of `handleWebSocket` (a `readFail` step) removes observer 5
    from the set with no write involved. -/
theorem observer_removal_counterexample :
    ¬ (∀ (l : BLabel) (s s' : List Nat) (c : Nat), BStep l s s' → c ∈ s → c ∉ s' →
        ∃ f, l = BLabel.broadcastMsg f ∧ f c = true) := by
  intro hclaim
  have hstep : BStep (BLabel.readFail 5) (5 :: []) [] := by
    have h := BStep.readFail 5 (5 :: [])
    simpa using h
  obtain ⟨f, hf, _⟩ := hclaim (BLabel.readFail 5) (5 :: []) [] 5 hstep (by simp) (by simp)
  simp at hf

/-- C9 amended: an observer is removed from the registered set only by a
    broadcast in which the write to it failed, or by its own read-loop error
    (connection closed) in `handleWebSocket`; registration never removes
    anyone. -/
theorem observer_removal_amended (l : BLabel) (s s' : List Nat) (c : Nat)
    (hstep : BStep l s s') (hin : c ∈ s) (hout : c ∉ s') :
    (∃ f, l = BLabel.broadcastMsg f ∧ f c = true) ∨ l = BLabel.readFail c := by
  cases hstep with
  | register c' =>
    exfalso
    apply hout
    rw [List.mem_insert_iff]
    exact Or.inr hin
  | broadcastMsg f =>
    left
    refine ⟨f, rfl, ?_⟩
    by_contra hf
    have hf' : f c = false := by
      cases hx : f c
      · rfl
      · exact absurd hx hf
    apply hout
    rw [List.mem_filter]
    exact ⟨hin, by simp [hf']⟩
  | readFail c' =>
    by_cases hcc : c = c'
    · right
      rw [hcc]
    · exfalso
      apply hout
      rw [List.mem_erase_of_ne hcc]
      exact hin

/-- A write-failure oracle under which every observer's write fails. -/
def failAllWrites : Nat → Bool := fun _ => true

theorem observer_removal_amended_witness :
    (∃ f, BLabel.broadcastMsg failAllWrites = BLabel.broadcastMsg f ∧ f 3 = true) ∨
      BLabel.broadcastMsg failAllWrites = BLabel.readFail 3 := by
  apply observer_removal_amended (BLabel.broadcastMsg failAllWrites) (3 :: []) [] 3
  · have h := BStep.broadcastMsg failAllWrites (3 :: [])
    simpa [failAllWrites] using h
  · simp
  · simp
